import Mathlib

/-!
Verification development for the group-messaging gateway
(`server/src/index.ts` plus the Mongoose schemas in `src/models/`).

The durable store (MongoDB) is embedded as lists of records with `Nat`
ObjectIds drawn from a monotone counter (ObjectIds are monotonically
increasing in creation order).  The ephemeral store (Redis) is embedded as
association lists mirroring the hash layout `group:{gid}:users` and
`user_connections`.  The transport's room primitive is an association list
from room name (the raw group-id string) to subscribed socket ids.
`createdAt` timestamps come from a logical clock that advances only via an
explicit clock op, so distinct records may share a timestamp, exactly as
`Date.now()` values at millisecond granularity may collide.
-/

/-- An Identity document (`models/user.ts`): unique address plus numeric
reputation fields (the numeric fields are never read by the session layer). -/
structure UserR where
  uid : Nat
  address : String
  winRate : Nat := 0
  wonTotalBets : Nat := 0
  totalBets : Nat := 0
  points : Nat := 0
deriving DecidableEq, Repr

/-- A Group document (`models/group.ts`). -/
structure GroupR where
  id : Nat
  name : String
  description : Option String := none
  owner : Nat
  members : List Nat
  isPrivate : Bool
  createdAt : Nat
deriving DecidableEq, Repr

/-- A Chat (message) document (`models/chat.ts`). -/
structure Msg where
  id : Nat
  message : String
  sender : Nat
  groupId : Nat
  createdAt : Nat
  isDeleted : Bool
deriving DecidableEq, Repr

/-- The wire shape of a message event (`MessageType` in `index.ts`):
`_id`, `message`, `sender.address`, `createdAt`, `groupId` (ids are
stringified on the wire; stringification is injective so `Nat` is kept). -/
structure MsgView where
  id : Nat
  message : String
  senderAddress : String
  createdAt : Nat
  groupId : Nat
deriving DecidableEq, Repr

/-- Association-list lookup (Redis `hget` / first-match semantics). -/
def alGet {β : Type} (l : List (String × β)) (k : String) : Option β :=
  (l.find? (fun p => p.1 == k)).map (fun p => p.2)

/-- Association-list upsert (Redis `hset`: overwrite the field if present,
append it otherwise). -/
def alUpsert {β : Type} : List (String × β) → String → β → List (String × β)
  | [], k, v => [(k, v)]
  | p :: t, k, v => if p.1 == k then (k, v) :: t else p :: alUpsert t k v

/-- Association-list removal (Redis `hdel` / `del`). -/
def alErase {β : Type} (l : List (String × β)) (k : String) : List (String × β) :=
  l.filter (fun p => p.1 != k)

/-- The ephemeral store: `group:{gid}:users` hashes (keyed here by the raw
`gid` string, the key shape being injective in `gid`) and the global
`user_connections` hash. A key is present iff it is in the outer list, so a
deleted hash is distinguishable from an empty one. -/
structure RedisState where
  groupUsers : List (String × List (String × String))
  userConnections : List (String × String)
deriving DecidableEq, Repr

/-- The durable store plus the ObjectId counter and the server clock. -/
structure DB where
  users : List UserR
  groups : List GroupR
  chats : List Msg
  nextOid : Nat
  clock : Nat
deriving DecidableEq, Repr

/-- Whole-server state: durable store, ephemeral store, transport rooms
(room name, i.e. raw group-id string, mapped to subscribed socket ids). -/
structure ServerState where
  db : DB
  redis : RedisState
  rooms : List (String × List String)
deriving DecidableEq, Repr

/-- `redisHelpers.addUserToGroup`: `hset group:{gid}:users sid addr`
(creates the hash when the key is absent). -/
def addUserToGroup (r : RedisState) (gid sid addr : String) : RedisState :=
  { r with groupUsers :=
      alUpsert r.groupUsers gid (alUpsert ((alGet r.groupUsers gid).getD []) sid addr) }

/-- `redisHelpers.removeUserFromGroup`: `hdel`, then `del` the key when
`hlen` has become zero. -/
def removeUserFromGroup (r : RedisState) (gid sid : String) : RedisState :=
  { r with groupUsers :=
      match alGet r.groupUsers gid with
      | none => r.groupUsers
      | some h =>
        let h2 := alErase h sid
        if h2 = [] then alErase r.groupUsers gid else alUpsert r.groupUsers gid h2 }

/-- `redisHelpers.addUserConnection`: `hset user_connections sid addr`. -/
def addUserConnection (r : RedisState) (sid addr : String) : RedisState :=
  { r with userConnections := alUpsert r.userConnections sid addr }

/-- `redisHelpers.cleanup`: for every key matching `group:*:users` (every
presence hash has that shape, so the scan covers them all) `hdel` the socket
and `del` the key if it became empty; finally drop the socket from
`user_connections`.  The per-key loop touches each key once, so it equals
this per-entry map. -/
def redisCleanup (r : RedisState) (sid : String) : RedisState :=
  { groupUsers := r.groupUsers.filterMap (fun p =>
      let h2 := alErase p.2 sid
      if h2 = [] then none else some (p.1, h2)),
    userConnections := alErase r.userConnections sid }

/-- `socket.join(groupId)`: subscribe the socket to the room named by the
raw group-id string (idempotent). -/
def roomJoin (rooms : List (String × List String)) (gid sid : String) :
    List (String × List String) :=
  let ms := (alGet rooms gid).getD []
  alUpsert rooms gid (if ms.contains sid then ms else ms ++ [sid])

/-- `socket.leave(groupId)`: unsubscribe the socket from the room. -/
def roomLeave (rooms : List (String × List String)) (gid sid : String) :
    List (String × List String) :=
  match alGet rooms gid with
  | none => rooms
  | some ms => alUpsert rooms gid (ms.filter (fun x => x != sid))

/-- The set of sockets currently subscribed to a room (`io.to(room)`). -/
def roomMembers (rooms : List (String × List String)) (gid : String) : List String :=
  (alGet rooms gid).getD []

/-- Hex-digit test on a character (by code point). -/
def isHexDigit (c : Char) : Bool :=
  (48 ≤ c.toNat && c.toNat ≤ 57) || (97 ≤ c.toNat && c.toNat ≤ 102) ||
    (65 ≤ c.toNat && c.toNat ≤ 70)

/-- Numeric value of a hex digit. -/
def hexVal (c : Char) : Nat :=
  if 48 ≤ c.toNat && c.toNat ≤ 57 then c.toNat - 48
  else if 97 ≤ c.toNat && c.toNat ≤ 102 then c.toNat - 87
  else c.toNat - 55

/-- Modelled from the spec: the ObjectId cast the durable-store driver
(Mongoose) applies to every client-supplied id string before a query or
insert; "fails with NotFound only if the group id is malformed".  A
well-formed id is a 24-character hex string; a malformed one raises a cast
error, which the handlers' catch blocks translate into the error paths. -/
def castObjectId (s : String) : Option Nat :=
  if s.length == 24 && s.toList.all isHexDigit
  then some (s.toList.foldl (fun n c => n * 16 + hexVal c) 0)
  else none

/-- `Group.findById` (first document whose `_id` matches). -/
def findGroup : List GroupR → Nat → Option GroupR
  | [], _ => none
  | g :: gs, oid => if g.id = oid then some g else findGroup gs oid

/-- `group.save()` after mutating `members`: replace the found document
(the first id match) with the version carrying the new member list. -/
def updateMembers : List GroupR → Nat → List Nat → List GroupR
  | [], _, _ => []
  | g :: gs, oid, ms =>
    if g.id = oid then { g with members := ms } :: gs else g :: updateMembers gs oid ms

/-- The durable part of `joinGroup`: `findById`, then push the user id onto
`members` and save, but only when the group exists and `members` does not
already include the user (Mongoose array `includes` compares ObjectIds by
value). -/
def dbJoinFound (db : DB) (uid oid : Nat) (g : GroupR) : DB :=
  if g.members.contains uid then db
  else { db with groups := updateMembers db.groups oid (g.members ++ [uid]) }

/-- The durable part of `joinGroup`, dispatching on `findById`. -/
def dbJoin (db : DB) (uid oid : Nat) : DB :=
  match findGroup db.groups oid with
  | none => db
  | some g => dbJoinFound db uid oid g

/-- `Group.create` inside the `createGroup` handler: fresh ObjectId,
`isPrivate` hard-coded to `false`, the owner seeded as the sole member,
`createdAt` stamped by the store (`timestamps: true`). -/
def dbCreateGroup (db : DB) (uid : Nat) (nm : String) (descr : Option String) :
    DB × GroupR :=
  let g : GroupR :=
    { id := db.nextOid, name := nm, description := descr, owner := uid,
      members := [uid], isPrivate := false, createdAt := db.clock }
  ({ db with groups := db.groups ++ [g], nextOid := db.nextOid + 1 }, g)

/-- Events emitted back over the transport. -/
inductive Output where
  | ack (sid : String)
  | errorEv (sid : String) (msg : String)
  | broadcastEv (recipients : List String) (payload : MsgView)
  | groupsReply (gs : List GroupR)
  | groupReply (g : Option GroupR)
  | messagesReply (ms : List MsgView)
deriving DecidableEq, Repr

/-- `sender.address` projection used by the wire format. -/
def msgView (addr : String) (m : Msg) : MsgView :=
  { id := m.id, message := m.message, senderAddress := addr,
    createdAt := m.createdAt, groupId := m.groupId }

/-- `populate('sender', 'address')`: resolve a sender id to its address. -/
def addrOf (users : List UserR) (uid : Nat) : String :=
  (((users.find? (fun x => x.uid == uid)).map (fun x => x.address))).getD ""

/-- The `joinGroup` handler (index.ts 213-228): presence write first, then
the durable member append (skipped when the group does not exist), then the
room subscription.  A malformed id makes `findById` throw, so the catch
block emits the error after the presence write and before the room
subscription. -/
def joinGroupH (st : ServerState) (sid : String) (u : UserR) (gid : String) :
    ServerState × List Output :=
  let st1 := { st with redis := addUserToGroup st.redis gid sid u.address }
  match castObjectId gid with
  | none => (st1, [Output.errorEv sid "Failed to join group"])
  | some oid =>
    ({ st1 with db := dbJoin st1.db u.uid oid, rooms := roomJoin st1.rooms gid sid }, [])

/-- The `leaveGroup` handler (index.ts 230-238): presence removal, then
room unsubscription; the durable store is never touched. -/
def leaveGroupH (st : ServerState) (sid gid : String) : ServerState × List Output :=
  ({ st with redis := removeUserFromGroup st.redis gid sid,
             rooms := roomLeave st.rooms gid sid }, [])

/-- The `sendMessage` handler (index.ts 240-263): `Chat.create` (which
casts the group id and throws on a malformed one, caught as the error
event), then broadcast to the room named by the raw group-id string. -/
def sendMessageH (st : ServerState) (sid : String) (u : UserR) (gid text : String) :
    ServerState × List Output :=
  match castObjectId gid with
  | none => (st, [Output.errorEv sid "Failed to send message"])
  | some oid =>
    let m : Msg := { id := st.db.nextOid, message := text, sender := u.uid,
                     groupId := oid, createdAt := st.db.clock, isDeleted := false }
    ({ st with db := { st.db with chats := st.db.chats ++ [m], nextOid := st.db.nextOid + 1 } },
     [Output.broadcastEv (roomMembers st.rooms gid) (msgView u.address m)])

/-- Newest-first comparison on groups (`sort({ createdAt: -1 })`). -/
def groupGe (a b : GroupR) : Prop := b.createdAt ≤ a.createdAt

instance : DecidableRel groupGe :=
  fun a b => inferInstanceAs (Decidable (b.createdAt ≤ a.createdAt))

instance : IsTotal GroupR groupGe := ⟨fun a b => Nat.le_total b.createdAt a.createdAt⟩

instance : IsTrans GroupR groupGe := ⟨fun _ _ _ h1 h2 => Nat.le_trans h2 h1⟩

/-- The `getGroups` handler (index.ts 170-191): all non-private groups
sorted newest-created first, then the viewer's member groups concatenated
before the rest (`member._id.toString() === user._id.toString()` is value
equality on ids). -/
def getGroupsH (db : DB) (u : UserR) : List GroupR :=
  let allGroups := List.insertionSort groupGe (db.groups.filter (fun g => !g.isPrivate))
  let userGroups := allGroups.filter (fun g => g.members.contains u.uid)
  let otherGroups := allGroups.filter (fun g => !(g.members.contains u.uid))
  userGroups ++ otherGroups

/-- The `createGroup` handler (index.ts 193-211). -/
def createGroupH (st : ServerState) (u : UserR) (nm : String) (descr : Option String) :
    ServerState × GroupR :=
  let p := dbCreateGroup st.db u.uid nm descr
  ({ st with db := p.1 }, p.2)

/-- Newest-first comparison on messages (`sort({ createdAt: -1 })`). -/
def msgGe (a b : Msg) : Prop := b.createdAt ≤ a.createdAt

instance : DecidableRel msgGe :=
  fun a b => inferInstanceAs (Decidable (b.createdAt ≤ a.createdAt))

instance : IsTotal Msg msgGe := ⟨fun a b => Nat.le_total b.createdAt a.createdAt⟩

instance : IsTrans Msg msgGe := ⟨fun _ _ _ h1 h2 => Nat.le_trans h2 h1⟩

/-- Strictly-newer comparison by ObjectId. -/
def idGt (a b : Msg) : Prop := b.id < a.id

instance : DecidableRel idGt := fun a b => inferInstanceAs (Decidable (b.id < a.id))

instance : IsAntisymm Msg idGt := ⟨fun _ _ h1 h2 => absurd h2 (Nat.lt_asymm h1)⟩

/-- The fixed part of the `loadMessages` query: same group, not
soft-deleted. -/
def liveIn (oid : Nat) (m : Msg) : Bool := m.groupId == oid && !m.isDeleted

/-- The cursor part of the `loadMessages` query (`_id: { $lt: before }`). -/
def cursorOk (before : Option Nat) (m : Msg) : Bool :=
  match before with
  | none => true
  | some b => m.id < b

/-- A group's persisted non-soft-deleted messages. -/
def liveMsgs (chats : List Msg) (oid : Nat) : List Msg := chats.filter (liveIn oid)

/-- The documents matched by the `loadMessages` query. -/
def queryMsgs (chats : List Msg) (oid : Nat) (before : Option Nat) : List Msg :=
  chats.filter (fun m => liveIn oid m && cursorOk before m)

/-- The heart of the `loadMessages` handler (index.ts 265-291): match on
group id, soft-delete flag and (optionally) `_id` strictly below the
cursor; sort by `createdAt` descending (a stable sort, modelling one legal
resolution of the store's tie order); return the first 50. -/
def loadMessagesPure (chats : List Msg) (oid : Nat) (before : Option Nat) : List Msg :=
  (List.insertionSort msgGe (queryMsgs chats oid before)).take 50

/-- The `loadMessages` handler including the id casts: a malformed group id
or cursor makes the query throw, so the catch block replies with `[]`; a
missing or empty-string `before` (`data.before &&` is a falsiness test)
drops the cursor clause. -/
def loadMessagesH (db : DB) (gid : String) (before : Option String) : List MsgView :=
  match castObjectId gid with
  | none => []
  | some oid =>
    match before with
    | none => (loadMessagesPure db.chats oid none).map (fun m => msgView (addrOf db.users m.sender) m)
    | some b =>
      if b = "" then
        (loadMessagesPure db.chats oid none).map (fun m => msgView (addrOf db.users m.sender) m)
      else
        match castObjectId b with
        | none => []
        | some bo =>
          (loadMessagesPure db.chats oid (some bo)).map (fun m => msgView (addrOf db.users m.sender) m)

/-- The authentication middleware (index.ts 143-160): a falsy token
(absent or empty) is rejected before the store lookup; otherwise the token
must resolve to an Identity by address (`address` is unique, `findOne`
returns the first match). -/
def authenticate (users : List UserR) (token : Option String) : Option UserR :=
  match token with
  | none => none
  | some t => if t == "" then none else users.find? (fun x => x.address == t)

/-- Connection establishment (index.ts 162-168): when the middleware
succeeds, register the connection in `user_connections`; when it fails, the
connection is rejected and nothing runs. -/
def connectH (st : ServerState) (sid : String) (token : Option String) :
    ServerState × Option UserR :=
  match authenticate st.db.users token with
  | none => (st, none)
  | some u => ({ st with redis := addUserConnection st.redis sid u.address }, some u)

/-- Client-to-server events accepted by an active session. -/
inductive CEvent where
  | joinG (gid : String)
  | leaveG (gid : String)
  | sendM (gid : String) (text : String)
  | getGs
  | createG (nm : String) (descr : Option String)
  | loadM (gid : String) (before : Option String)
deriving DecidableEq, Repr

/-- Event dispatch of an active session. -/
def handleEvent (st : ServerState) (sid : String) (u : UserR) :
    CEvent → ServerState × List Output
  | .joinG gid => joinGroupH st sid u gid
  | .leaveG gid => leaveGroupH st sid gid
  | .sendM gid text => sendMessageH st sid u gid text
  | .getGs => (st, [Output.groupsReply (getGroupsH st.db u)])
  | .createG nm descr =>
    let p := createGroupH st u nm descr
    (p.1, [Output.groupReply (some p.2)])
  | .loadM gid before => (st, [Output.messagesReply (loadMessagesH st.db gid before)])

/-- One connection's lifecycle: middleware, then (only on success)
registration, the `connectionEstablished` acknowledgment, and the event
loop.  A rejected connection has no handlers registered, so every
subsequent event from that client is dropped. -/
def runSession (st : ServerState) (sid : String) (token : Option String)
    (evs : List CEvent) : ServerState × List Output :=
  match authenticate st.db.users token with
  | none => (st, [])
  | some u =>
    let st1 := { st with redis := addUserConnection st.redis sid u.address }
    evs.foldl (fun acc e =>
      let p := handleEvent acc.1 sid u e
      (p.1, acc.2 ++ p.2)) (st1, [Output.ack sid])

/-- Every state-touching operation the server performs, over all
connections: a dispatched client event (with the session's socket id and
authenticated user), a connection establishment, the disconnect cleanup
(index.ts 293-295), and a server-clock advance between events. -/
inductive Op where
  | ev (sid : String) (u : UserR) (e : CEvent)
  | conn (sid : String) (token : Option String)
  | disc (sid : String)
  | tick (dt : Nat)
deriving DecidableEq, Repr

/-- State transition of a single operation. -/
def stepOp (st : ServerState) : Op → ServerState
  | .ev sid u e => (handleEvent st sid u e).1
  | .conn sid token => (connectH st sid token).1
  | .disc sid => { st with redis := redisCleanup st.redis sid }
  | .tick dt => { st with db := { st.db with clock := st.db.clock + dt } }

/-- State after a sequence of operations. -/
def stepsOp (st : ServerState) (ops : List Op) : ServerState := ops.foldl stepOp st

/-- The oldest (smallest) ObjectId in a returned page; ids are monotone in
creation order, so this is the id of the oldest message of the page. -/
def oldestId : List Msg → Nat
  | [] => 0
  | m :: ms => ms.foldl (fun a x => min a x.id) m.id

/-- The client-side pagination walk of the spec: request a page, and while
pages are non-empty keep requesting with `before` set to the oldest id the
previous page returned. `fuel` bounds the recursion; `walkPages` supplies
enough fuel for every terminating walk. -/
def walkAux (chats : List Msg) (oid : Nat) : Nat → Option Nat → List (List Msg)
  | 0, _ => []
  | fuel + 1, before =>
    if loadMessagesPure chats oid before = [] then []
    else loadMessagesPure chats oid before ::
      walkAux chats oid fuel (some (oldestId (loadMessagesPure chats oid before)))

/-- The full pagination walk, started without a cursor. -/
def walkPages (chats : List Msg) (oid : Nat) : List (List Msg) :=
  walkAux chats oid (chats.length + 1) none

/-- Fifty-one messages of group 7, all persisted in the same millisecond
(equal `createdAt`), with distinct monotone ids. -/
def cexChats : List Msg :=
  (List.range 51).map (fun i =>
    { id := i, message := "", sender := 0, groupId := 7, createdAt := 0, isDeleted := false })

/-- An empty server state, used to instantiate theorems with hypotheses. -/
def st0 : ServerState :=
  { db := { users := [], groups := [], chats := [], nextOid := 0, clock := 0 },
    redis := { groupUsers := [], userConnections := [] },
    rooms := [] }

/-- A sample identity. -/
def u0 : UserR := { uid := 1, address := "alice" }

/-- A sample group owned by `u0`, with ObjectId 5. -/
def g0 : GroupR :=
  { id := 5, name := "general", owner := 1, members := [1], isPrivate := false, createdAt := 0 }

/-- A server state holding just `g0`. -/
def st1 : ServerState :=
  { db := { users := [u0], groups := [g0], chats := [], nextOid := 6, clock := 1 },
    redis := { groupUsers := [], userConnections := [] },
    rooms := [] }

/-- The 24-hex-character ObjectId string denoting 5 (the id of `g0`). -/
def oid5 : String := "000000000000000000000005"

/-- A well-formed ObjectId string denoting 9, an id no stored group has. -/
def oid9 : String := "000000000000000000000009"
/-- The identity address recorded for a connection in a group's presence
hash (reading an absent key as the empty hash, as Redis does). -/
def presenceAddr (r : RedisState) (gid sid : String) : Option String :=
  alGet ((alGet r.groupUsers gid).getD []) sid

/-- No presence hash is present-but-empty. -/
def noGhost (r : RedisState) : Prop := ∀ e ∈ r.groupUsers, e.2 ≠ []

instance (r : RedisState) : Decidable (noGhost r) :=
  inferInstanceAs (Decidable (∀ e ∈ r.groupUsers, e.2 ≠ []))

/-- Every stored group's member set is duplicate-free. -/
def membersNodup (db : DB) : Prop := ∀ g ∈ db.groups, g.members.Nodup

instance (db : DB) : Decidable (membersNodup db) :=
  inferInstanceAs (Decidable (∀ g ∈ db.groups, g.members.Nodup))

/-- An ephemeral store with one single-entry presence hash. -/
def rGhost : RedisState :=
  { groupUsers := [("g", [("s1", "alice")])], userConnections := [] }

/-- A server state carrying `rGhost`. -/
def stGhost : ServerState := { db := st0.db, redis := rGhost, rooms := [] }

/-- A one-message store used to instantiate the pagination theorem. -/
def wChats : List Msg :=
  [{ id := 1, message := "hi", sender := 1, groupId := 3, createdAt := 10, isDeleted := false }]

theorem alGet_erase_self {β : Type} (l : List (String × β)) (k : String) :
    alGet (alErase l k) k = none := by
  have h : (List.filter (fun p => p.1 != k) l).find? (fun p => p.1 == k) = none := by
    rw [List.find?_eq_none]
    intro x hx
    rcases List.mem_filter.mp hx with ⟨-, hne⟩
    simp only [bne_iff_ne, ne_eq] at hne
    simp [hne]
  simp [alGet, alErase, h]

theorem alGet_upsert_self {β : Type} (l : List (String × β)) (k : String) (v : β) :
    alGet (alUpsert l k v) k = some v := by
  induction l with
  | nil => simp [alUpsert, alGet, List.find?]
  | cons p t ih =>
    by_cases h : p.1 == k
    · simp [alUpsert, h, alGet, List.find?]
    · simp only [alUpsert, h, if_false]
      simpa [alGet, List.find?_cons, h] using ih

theorem mem_alUpsert {β : Type} {l : List (String × β)} {k : String} {v : β} {q : String × β}
    (hq : q ∈ alUpsert l k v) : q = (k, v) ∨ q ∈ l := by
  induction l with
  | nil => simpa [alUpsert] using hq
  | cons p t ih =>
    by_cases h : p.1 == k
    · simp only [alUpsert, h, if_true] at hq
      rcases List.mem_cons.mp hq with h1 | h2
      · exact Or.inl h1
      · exact Or.inr (List.mem_cons_of_mem _ h2)
    · simp only [alUpsert, h, if_false] at hq
      rcases List.mem_cons.mp hq with h1 | h2
      · exact Or.inr (h1 ▸ List.mem_cons_self _ _)
      · rcases ih h2 with h3 | h4
        · exact Or.inl h3
        · exact Or.inr (List.mem_cons_of_mem _ h4)

theorem alUpsert_ne_nil {β : Type} (l : List (String × β)) (k : String) (v : β) :
    alUpsert l k v ≠ [] := by
  cases l with
  | nil => simp [alUpsert]
  | cons p t =>
    by_cases h : p.1 == k <;> simp [alUpsert, h]
/-- C3: after the disconnect cleanup runs for a connection id, no group's
presence hash contains that connection id and `user_connections` no longer
contains it, for every starting state (hence however many groups the
connection had joined). -/
theorem disconnect_cleanup_total (st : ServerState) (sid : String) :
    (stepOp st (Op.disc sid)).redis = redisCleanup st.redis sid ∧
    (∀ e ∈ (redisCleanup st.redis sid).groupUsers, alGet e.2 sid = none) ∧
    alGet (redisCleanup st.redis sid).userConnections sid = none := by
  refine ⟨rfl, ?_, ?_⟩
  · intro e he
    simp only [redisCleanup, List.mem_filterMap] at he
    obtain ⟨p, hp, hfe⟩ := he
    by_cases h : alErase p.2 sid = []
    · simp [h] at hfe
    · simp only [h, if_false] at hfe
      cases hfe
      exact alGet_erase_self _ _
  · exact alGet_erase_self _ _

/-- C4: when the credential token is absent or resolves to no identity,
authentication fails: the connection attempt is rejected with no partial
session state (the state is unchanged, so the connection is never added to
`user_connections`), no `connectionEstablished` acknowledgment is emitted,
and a whole session running any list of subsequent client events leaves the
state unchanged and produces no output at all. -/
theorem auth_failure_rejects (st : ServerState) (sid : String) (token : Option String)
    (evs : List CEvent) (h : authenticate st.db.users token = none) :
    connectH st sid token = (st, none) ∧ runSession st sid token evs = (st, []) := by
  constructor
  · simp [connectH, h]
  · simp [runSession, h]

/-- Witness for C4 at a concrete input: an unknown token against the empty
identity store is rejected and a subsequent `getGroups` event is dropped. -/
theorem auth_failure_rejects_witness :
    authenticate st0.db.users (some "tok") = none ∧
    (connectH st0 "s1" (some "tok") = (st0, none) ∧
      runSession st0 "s1" (some "tok") [CEvent.getGs] = (st0, [])) :=
  ⟨by decide, auth_failure_rejects st0 "s1" (some "tok") [CEvent.getGs] (by decide)⟩
theorem roomJoin_mem (rooms : List (String × List String)) (gid sid : String) :
    sid ∈ roomMembers (roomJoin rooms gid sid) gid := by
  unfold roomJoin roomMembers
  rw [alGet_upsert_self, Option.getD_some]
  split
  · next h => exact List.elem_iff.mp h
  · simp
/-- C10: joining with a well-formed group id that references no stored
group succeeds silently: no error event, the durable store untouched (the
member append is skipped), the connection recorded in that group's presence
hash, and the socket subscribed to the room — so presence entries and room
subscriptions can exist for groups absent from the durable store. -/
theorem join_nonexistent_group (st : ServerState) (sid : String) (u : UserR)
    (gid : String) (oid : Nat) (hcast : castObjectId gid = some oid)
    (habs : findGroup st.db.groups oid = none) :
    (joinGroupH st sid u gid).2 = [] ∧
    (joinGroupH st sid u gid).1.db = st.db ∧
    presenceAddr (joinGroupH st sid u gid).1.redis gid sid = some u.address ∧
    sid ∈ roomMembers (joinGroupH st sid u gid).1.rooms gid := by
  have hdb : dbJoin st.db u.uid oid = st.db := by
    unfold dbJoin
    rw [habs]
  refine ⟨?_, ?_, ?_, ?_⟩
  · simp [joinGroupH, hcast]
  · simp [joinGroupH, hcast, hdb]
  · simp only [joinGroupH, hcast]
    unfold presenceAddr addUserToGroup
    simp only []
    rw [alGet_upsert_self, Option.getD_some, alGet_upsert_self]
  · simp only [joinGroupH, hcast]
    exact roomJoin_mem _ _ _

/-- Witness for C10: joining `st1` (which stores only group 5) with the
well-formed id string for 9. -/
theorem join_nonexistent_group_witness :
    castObjectId oid9 = some 9 ∧ findGroup st1.db.groups 9 = none ∧
    ((joinGroupH st1 "s1" u0 oid9).2 = [] ∧
      (joinGroupH st1 "s1" u0 oid9).1.db = st1.db ∧
      presenceAddr (joinGroupH st1 "s1" u0 oid9).1.redis oid9 "s1" = some u0.address ∧
      "s1" ∈ roomMembers (joinGroupH st1 "s1" u0 oid9).1.rooms oid9) :=
  ⟨by decide, by decide, join_nonexistent_group st1 "s1" u0 oid9 9 (by decide) (by decide)⟩
/-- C5: `sendMessage` fails (with the error event the taxonomy maps to
NotFound) exactly when the supplied group id is malformed; with a
well-formed id referencing no stored group the message is persisted with a
fresh id and the server timestamp, a broadcast goes to the room's current
(possibly empty) subscriber set, and no error is emitted. -/
theorem sendMessage_no_group_ok (st : ServerState) (sid : String) (u : UserR)
    (gid text : String) (oid : Nat) (hcast : castObjectId gid = some oid)
    (habs : ∀ g ∈ st.db.groups, g.id ≠ oid) :
    (sendMessageH st sid u gid text).1.db.chats =
      st.db.chats ++ [{ id := st.db.nextOid, message := text, sender := u.uid,
                        groupId := oid, createdAt := st.db.clock, isDeleted := false }] ∧
    (sendMessageH st sid u gid text).2 =
      [Output.broadcastEv (roomMembers st.rooms gid)
        (msgView u.address { id := st.db.nextOid, message := text, sender := u.uid,
                             groupId := oid, createdAt := st.db.clock, isDeleted := false })] ∧
    (∀ gid2 : String, castObjectId gid2 = none →
      sendMessageH st sid u gid2 text = (st, [Output.errorEv sid "Failed to send message"])) := by
  refine ⟨?_, ?_, ?_⟩
  · simp [sendMessageH, hcast]
  · simp [sendMessageH, hcast]
  · intro gid2 h2
    simp [sendMessageH, h2]

/-- Witness for C5: sending to the well-formed id 9 (no such group in
`st1`) persists and broadcasts; sending to the malformed id `"xyz"` errors. -/
theorem sendMessage_no_group_ok_witness :
    castObjectId oid9 = some 9 ∧ (∀ g ∈ st1.db.groups, g.id ≠ 9) ∧
    ((sendMessageH st1 "s1" u0 oid9 "hi").1.db.chats =
      st1.db.chats ++ [{ id := st1.db.nextOid, message := "hi", sender := u0.uid,
                         groupId := 9, createdAt := st1.db.clock, isDeleted := false }] ∧
     (sendMessageH st1 "s1" u0 oid9 "hi").2 =
      [Output.broadcastEv (roomMembers st1.rooms oid9)
        (msgView u0.address { id := st1.db.nextOid, message := "hi", sender := u0.uid,
                              groupId := 9, createdAt := st1.db.clock, isDeleted := false })] ∧
     (∀ gid2 : String, castObjectId gid2 = none →
       sendMessageH st1 "s1" u0 gid2 "hi" = (st1, [Output.errorEv "s1" "Failed to send message"]))) :=
  ⟨by decide, by decide, sendMessage_no_group_ok st1 "s1" u0 oid9 "hi" 9 (by decide) (by decide)⟩
theorem findGroup_mem {gs : List GroupR} {oid : Nat} {g : GroupR}
    (h : findGroup gs oid = some g) : g ∈ gs ∧ g.id = oid := by
  induction gs with
  | nil => simp [findGroup] at h
  | cons p t ih =>
    by_cases hp : p.id = oid
    · rw [findGroup, if_pos hp] at h
      cases h
      exact ⟨List.mem_cons_self _ _, hp⟩
    · rw [findGroup, if_neg hp] at h
      rcases ih h with ⟨h1, h2⟩
      exact ⟨List.mem_cons_of_mem _ h1, h2⟩

theorem mem_updateMembers {gs : List GroupR} {oid : Nat} {g1 : GroupR} {ms : List Nat}
    (hf : findGroup gs oid = some g1) :
    ∀ g2 ∈ updateMembers gs oid ms, g2 ∈ gs ∨ g2 = { g1 with members := ms } := by
  induction gs with
  | nil => simp [updateMembers]
  | cons p t ih =>
    by_cases hp : p.id = oid
    · rw [findGroup, if_pos hp] at hf
      cases hf
      rw [updateMembers, if_pos hp]
      intro g2 hg2
      rcases List.mem_cons.mp hg2 with h1 | h2
      · exact Or.inr h1
      · exact Or.inl (List.mem_cons_of_mem _ h2)
    · rw [findGroup, if_neg hp] at hf
      rw [updateMembers, if_neg hp]
      intro g2 hg2
      rcases List.mem_cons.mp hg2 with h1 | h2
      · exact Or.inl (h1 ▸ List.mem_cons_self _ _)
      · rcases ih hf g2 h2 with h3 | h4
        · exact Or.inl (List.mem_cons_of_mem _ h3)
        · exact Or.inr h4

theorem updateMembers_mono {gs : List GroupR} {oid : Nat} {g1 : GroupR} {ms : List Nat}
    (hf : findGroup gs oid = some g1) (hms : ∀ x ∈ g1.members, x ∈ ms) :
    ∀ g ∈ gs, ∃ g2 ∈ updateMembers gs oid ms,
      g2.id = g.id ∧ g2.isPrivate = g.isPrivate ∧ g2.createdAt = g.createdAt ∧
      ∀ x ∈ g.members, x ∈ g2.members := by
  induction gs with
  | nil => simp
  | cons p t ih =>
    by_cases hp : p.id = oid
    · rw [findGroup, if_pos hp] at hf
      cases hf
      rw [updateMembers, if_pos hp]
      intro g hg
      rcases List.mem_cons.mp hg with h1 | h2
      · subst h1
        exact ⟨{ g with members := ms }, List.mem_cons_self _ _, rfl, rfl, rfl, hms⟩
      · exact ⟨g, List.mem_cons_of_mem _ h2, rfl, rfl, rfl, fun x hx => hx⟩
    · rw [findGroup, if_neg hp] at hf
      rw [updateMembers, if_neg hp]
      intro g hg
      rcases List.mem_cons.mp hg with h1 | h2
      · exact ⟨g, h1 ▸ List.mem_cons_self _ _, rfl, rfl, rfl, fun x hx => hx⟩
      · rcases ih hf g h2 with ⟨g2, hg2, he⟩
        exact ⟨g2, List.mem_cons_of_mem _ hg2, he⟩

theorem findGroup_updateMembers {gs : List GroupR} {oid : Nat} {g1 : GroupR} {ms : List Nat}
    (hf : findGroup gs oid = some g1) :
    findGroup (updateMembers gs oid ms) oid = some { g1 with members := ms } := by
  induction gs with
  | nil => simp [findGroup] at hf
  | cons p t ih =>
    by_cases hp : p.id = oid
    · rw [findGroup, if_pos hp] at hf
      cases hf
      rw [updateMembers, if_pos hp, findGroup, if_pos hp]
    · rw [findGroup, if_neg hp] at hf
      rw [updateMembers, if_neg hp, findGroup, if_neg hp]
      exact ih hf
theorem dbJoin_eq_none {db : DB} {uid oid : Nat} (h : findGroup db.groups oid = none) :
    dbJoin db uid oid = db := by
  unfold dbJoin
  rw [h]

theorem dbJoin_eq_some {db : DB} {uid oid : Nat} {g : GroupR}
    (h : findGroup db.groups oid = some g) :
    dbJoin db uid oid = dbJoinFound db uid oid g := by
  unfold dbJoin
  rw [h]

theorem joinGroupH_db (st : ServerState) (sid : String) (u : UserR) (gid : String) :
    (joinGroupH st sid u gid).1.db =
      (match castObjectId gid with
       | none => st.db
       | some oid => dbJoin st.db u.uid oid) := by
  unfold joinGroupH
  cases castObjectId gid <;> rfl

theorem joinGroupH_redis (st : ServerState) (sid : String) (u : UserR) (gid : String) :
    (joinGroupH st sid u gid).1.redis = addUserToGroup st.redis gid sid u.address := by
  unfold joinGroupH
  cases castObjectId gid <;> rfl

theorem sendMessageH_groups (st : ServerState) (sid : String) (u : UserR) (gid text : String) :
    (sendMessageH st sid u gid text).1.db.groups = st.db.groups := by
  unfold sendMessageH
  cases castObjectId gid <;> rfl

theorem sendMessageH_redis (st : ServerState) (sid : String) (u : UserR) (gid text : String) :
    (sendMessageH st sid u gid text).1.redis = st.redis := by
  unfold sendMessageH
  cases castObjectId gid <;> rfl

theorem connectH_db (st : ServerState) (sid : String) (token : Option String) :
    (connectH st sid token).1.db = st.db := by
  unfold connectH
  cases authenticate st.db.users token <;> rfl

theorem connectH_groupUsers (st : ServerState) (sid : String) (token : Option String) :
    (connectH st sid token).1.redis.groupUsers = st.redis.groupUsers := by
  unfold connectH
  cases authenticate st.db.users token <;> rfl

theorem stepOp_groups_mono (st : ServerState) (op : Op) :
    ∀ g ∈ st.db.groups, ∃ g2 ∈ (stepOp st op).db.groups,
      g2.id = g.id ∧ g2.isPrivate = g.isPrivate ∧ g2.createdAt = g.createdAt ∧
      ∀ x ∈ g.members, x ∈ g2.members := by
  have triv : ∀ (gs : List GroupR), ∀ g ∈ gs, ∃ g2 ∈ gs,
      g2.id = g.id ∧ g2.isPrivate = g.isPrivate ∧ g2.createdAt = g.createdAt ∧
      ∀ x ∈ g.members, x ∈ g2.members :=
    fun gs g hg => ⟨g, hg, rfl, rfl, rfl, fun x hx => hx⟩
  cases op with
  | ev sid u e =>
    cases e with
    | joinG gid =>
      intro g hg
      have hstep : (stepOp st (Op.ev sid u (CEvent.joinG gid))).db =
          (match castObjectId gid with
           | none => st.db
           | some oid => dbJoin st.db u.uid oid) := joinGroupH_db st sid u gid
      rw [hstep]
      cases hcast : castObjectId gid with
      | none => exact triv _ g hg
      | some oid =>
        have hred : (match (some oid : Option Nat) with
            | none => st.db
            | some o => dbJoin st.db u.uid o) = dbJoin st.db u.uid oid := rfl
        rw [hred]
        cases hf : findGroup st.db.groups oid with
        | none =>
          rw [dbJoin_eq_none hf]
          exact triv _ g hg
        | some g1 =>
          rw [dbJoin_eq_some hf]
          unfold dbJoinFound
          by_cases hmem : g1.members.contains u.uid
          · rw [if_pos hmem]
            exact triv _ g hg
          · rw [if_neg hmem]
            exact updateMembers_mono hf (fun x hx => List.mem_append_left _ hx) g hg
    | leaveG gid => exact triv _
    | sendM gid text =>
      intro g hg
      rw [show (stepOp st (Op.ev sid u (CEvent.sendM gid text))).db.groups = st.db.groups
        from sendMessageH_groups st sid u gid text]
      exact triv _ g hg
    | getGs => exact triv _
    | createG nm descr =>
      intro g hg
      exact ⟨g, List.mem_append_left _ hg, rfl, rfl, rfl, fun x hx => hx⟩
    | loadM gid before => exact triv _
  | conn sid token =>
    intro g hg
    rw [show (stepOp st (Op.conn sid token)).db = st.db from connectH_db st sid token]
    exact triv _ g hg
  | disc sid => exact triv _
  | tick dt => exact triv _

theorem stepsOp_groups_mono (st : ServerState) (ops : List Op) :
    ∀ g ∈ st.db.groups, ∃ g2 ∈ (stepsOp st ops).db.groups,
      g2.id = g.id ∧ g2.isPrivate = g.isPrivate ∧ g2.createdAt = g.createdAt ∧
      ∀ x ∈ g.members, x ∈ g2.members := by
  induction ops generalizing st with
  | nil => exact fun g hg => ⟨g, hg, rfl, rfl, rfl, fun x hx => hx⟩
  | cons op t ih =>
    intro g hg
    rcases stepOp_groups_mono st op g hg with ⟨g2, hg2, hid, hpriv, hca, hmem⟩
    rcases ih (stepOp st op) g2 hg2 with ⟨g3, hg3, hid2, hpriv2, hca2, hmem2⟩
    exact ⟨g3, hg3, hid2.trans hid, hpriv2.trans hpriv, hca2.trans hca,
      fun x hx => hmem2 x (hmem x hx)⟩
theorem presence_remove (r : RedisState) (gid sid : String) :
    presenceAddr (removeUserFromGroup r gid sid) gid sid = none := by
  cases hg : alGet r.groupUsers gid with
  | none =>
    have h1 : removeUserFromGroup r gid sid = r := by
      unfold removeUserFromGroup
      rw [hg]
    rw [h1]
    unfold presenceAddr
    rw [hg]
    rfl
  | some h =>
    by_cases h2 : alErase h sid = []
    · have h1 : (removeUserFromGroup r gid sid).groupUsers = alErase r.groupUsers gid := by
        unfold removeUserFromGroup
        rw [hg]
        simp [h2]
      unfold presenceAddr
      rw [h1, alGet_erase_self]
      rfl
    · have h1 : (removeUserFromGroup r gid sid).groupUsers =
          alUpsert r.groupUsers gid (alErase h sid) := by
        unfold removeUserFromGroup
        rw [hg]
        simp [h2]
      unfold presenceAddr
      rw [h1, alGet_upsert_self, Option.getD_some, alGet_erase_self]

theorem roomLeave_not_mem (rooms : List (String × List String)) (gid sid : String) :
    sid ∉ roomMembers (roomLeave rooms gid sid) gid := by
  cases hg : alGet rooms gid with
  | none =>
    have h1 : roomLeave rooms gid sid = rooms := by
      unfold roomLeave
      rw [hg]
    rw [h1]
    unfold roomMembers
    rw [hg]
    simp
  | some ms =>
    have h1 : roomLeave rooms gid sid = alUpsert rooms gid (ms.filter (fun x => x != sid)) := by
      unfold roomLeave
      rw [hg]
    rw [h1]
    unfold roomMembers
    rw [alGet_upsert_self, Option.getD_some]
    intro hmem
    rcases List.mem_filter.mp hmem with ⟨-, hne⟩
    simp at hne

/-- C6: leaving a group removes the connection from that group's presence
hash and unsubscribes it from the transport room, while the durable store —
in particular every group's member set — is untouched; moreover no server
operation whatsoever ever removes an identity from a group's durable member
set. -/
theorem leaveGroup_presence_only (st : ServerState) (sid gid : String) :
    (leaveGroupH st sid gid).1.db = st.db ∧
    (leaveGroupH st sid gid).2 = [] ∧
    presenceAddr (leaveGroupH st sid gid).1.redis gid sid = none ∧
    sid ∉ roomMembers (leaveGroupH st sid gid).1.rooms gid ∧
    (∀ st2 op, ∀ g ∈ st2.db.groups, ∃ g2 ∈ (stepOp st2 op).db.groups,
      g2.id = g.id ∧ ∀ x ∈ g.members, x ∈ g2.members) := by
  refine ⟨rfl, rfl, presence_remove _ _ _, roomLeave_not_mem _ _ _, ?_⟩
  intro st2 op g hg
  rcases stepOp_groups_mono st2 op g hg with ⟨g2, hg2, hid, -, -, hmem⟩
  exact ⟨g2, hg2, hid, hmem⟩
theorem stepOp_nodup {st : ServerState} (op : Op) (h : membersNodup st.db) :
    membersNodup (stepOp st op).db := by
  cases op with
  | ev sid u e =>
    cases e with
    | joinG gid =>
      intro g2 hg2
      rw [show (stepOp st (Op.ev sid u (CEvent.joinG gid))).db =
          (match castObjectId gid with
           | none => st.db
           | some oid => dbJoin st.db u.uid oid) from joinGroupH_db st sid u gid] at hg2
      cases hcast : castObjectId gid with
      | none =>
        rw [hcast] at hg2
        exact h g2 hg2
      | some oid =>
        rw [hcast] at hg2
        cases hf : findGroup st.db.groups oid with
        | none =>
          rw [show (match (some oid : Option Nat) with
              | none => st.db
              | some o => dbJoin st.db u.uid o) = dbJoin st.db u.uid oid from rfl,
            dbJoin_eq_none hf] at hg2
          exact h g2 hg2
        | some g1 =>
          rw [show (match (some oid : Option Nat) with
              | none => st.db
              | some o => dbJoin st.db u.uid o) = dbJoin st.db u.uid oid from rfl,
            dbJoin_eq_some hf] at hg2
          unfold dbJoinFound at hg2
          by_cases hmem : g1.members.contains u.uid
          · rw [if_pos hmem] at hg2
            exact h g2 hg2
          · rw [if_neg hmem] at hg2
            rcases mem_updateMembers hf g2 hg2 with h1 | h1
            · exact h g2 h1
            · subst h1
              have hg1 : g1 ∈ st.db.groups := (findGroup_mem hf).1
              have hnd : g1.members.Nodup := h g1 hg1
              have hni : u.uid ∉ g1.members := fun hx => hmem (List.elem_iff.mpr hx)
              exact hnd.append (List.nodup_singleton _) (List.disjoint_singleton.2 hni)
    | leaveG gid => exact h
    | sendM gid text =>
      intro g2 hg2
      rw [show (stepOp st (Op.ev sid u (CEvent.sendM gid text))).db.groups = st.db.groups
        from sendMessageH_groups st sid u gid text] at hg2
      exact h g2 hg2
    | getGs => exact h
    | createG nm descr =>
      intro g2 hg2
      rcases List.mem_append.mp hg2 with h1 | h1
      · exact h g2 h1
      · rcases List.mem_singleton.mp h1 with rfl
        exact List.nodup_singleton _
    | loadM gid before => exact h
  | conn sid token =>
    intro g2 hg2
    rw [show (stepOp st (Op.conn sid token)).db = st.db from connectH_db st sid token] at hg2
    exact h g2 hg2
  | disc sid => exact h
  | tick dt => exact h

theorem stepsOp_nodup {st : ServerState} (ops : List Op) (h : membersNodup st.db) :
    membersNodup (stepsOp st ops).db := by
  induction ops generalizing st with
  | nil => exact h
  | cons op t ih => exact ih (stepOp_nodup op h)
/-- C2: joining the same group twice with the same identity leaves the
durable member set with exactly one entry for that identity, and—across any
sequence of server operations—a group's member set never acquires
duplicates. -/
theorem join_idempotent (st : ServerState) (sid sid2 : String) (u : UserR)
    (gid : String) (oid : Nat) (g : GroupR)
    (hcast : castObjectId gid = some oid)
    (hg : findGroup st.db.groups oid = some g)
    (hcount : g.members.count u.uid ≤ 1) :
    (∀ g2, findGroup (joinGroupH (joinGroupH st sid u gid).1 sid2 u gid).1.db.groups oid =
        some g2 → g2.members.count u.uid = 1) ∧
    (∀ st3 ops, membersNodup st3.db → membersNodup (stepsOp st3 ops).db) := by
  refine ⟨?_, fun st3 ops h3 => stepsOp_nodup ops h3⟩
  have hdb1 : (joinGroupH st sid u gid).1.db = dbJoin st.db u.uid oid := by
    rw [joinGroupH_db, hcast]
  have hdb2 : (joinGroupH (joinGroupH st sid u gid).1 sid2 u gid).1.db =
      dbJoin (joinGroupH st sid u gid).1.db u.uid oid := by
    rw [joinGroupH_db, hcast]
  by_cases hmem : g.members.contains u.uid
  · have e1 : dbJoin st.db u.uid oid = st.db := by
      rw [dbJoin_eq_some hg]
      unfold dbJoinFound
      rw [if_pos hmem]
    have hfin : (joinGroupH (joinGroupH st sid u gid).1 sid2 u gid).1.db = st.db := by
      rw [hdb2, hdb1, e1, e1]
    intro g2 hg2
    rw [hfin, hg] at hg2
    cases hg2
    have hpos : 0 < g.members.count u.uid :=
      List.count_pos_iff.mpr (List.elem_iff.mp hmem)
    exact Nat.le_antisymm hcount hpos
  · have e1 : dbJoin st.db u.uid oid =
        { st.db with groups := updateMembers st.db.groups oid (g.members ++ [u.uid]) } := by
      rw [dbJoin_eq_some hg]
      unfold dbJoinFound
      rw [if_neg hmem]
    have hf2 : findGroup (joinGroupH st sid u gid).1.db.groups oid =
        some { g with members := g.members ++ [u.uid] } := by
      rw [hdb1, e1]
      exact findGroup_updateMembers hg
    have hmem2 : ({ g with members := g.members ++ [u.uid] } : GroupR).members.contains u.uid :=
      List.elem_iff.mpr (List.mem_append_right _ (List.mem_singleton_self _))
    have e2 : dbJoin (joinGroupH st sid u gid).1.db u.uid oid =
        (joinGroupH st sid u gid).1.db := by
      rw [dbJoin_eq_some hf2]
      unfold dbJoinFound
      rw [if_pos hmem2]
    intro g2 hg2
    rw [hdb2, e2, hf2] at hg2
    cases hg2
    have hz : g.members.count u.uid = 0 :=
      List.count_eq_zero.mpr (fun hx => hmem (List.elem_iff.mpr hx))
    simp [List.count_append, hz]

/-- Witness for C2: joining group 5 of `st1` twice as `u0` (who is already
its sole member) leaves exactly one membership entry. -/
theorem join_idempotent_witness :
    castObjectId oid5 = some 5 ∧ findGroup st1.db.groups 5 = some g0 ∧
    g0.members.count u0.uid ≤ 1 ∧
    ((∀ g2, findGroup (joinGroupH (joinGroupH st1 "s1" u0 oid5).1 "s2" u0 oid5).1.db.groups 5 =
        some g2 → g2.members.count u0.uid = 1) ∧
     (∀ st3 ops, membersNodup st3.db → membersNodup (stepsOp st3 ops).db)) :=
  ⟨by decide, by decide, by decide,
    join_idempotent st1 "s1" "s2" u0 oid5 5 g0 (by decide) (by decide) (by decide)⟩
theorem noGhost_addUser {r : RedisState} (gid sid addr : String) (h : noGhost r) :
    noGhost (addUserToGroup r gid sid addr) := by
  intro e he
  rcases mem_alUpsert he with h1 | h1
  · subst h1
    exact alUpsert_ne_nil _ _ _
  · exact h e h1

theorem noGhost_remove {r : RedisState} (gid sid : String) (h : noGhost r) :
    noGhost (removeUserFromGroup r gid sid) := by
  intro e he
  unfold removeUserFromGroup at he
  cases hg : alGet r.groupUsers gid with
  | none =>
    rw [hg] at he
    exact h e he
  | some hh =>
    rw [hg] at he
    by_cases h2 : alErase hh sid = []
    · simp only [h2, if_true] at he
      exact h e (List.mem_filter.mp he).1
    · simp only [h2, if_false] at he
      rcases mem_alUpsert he with h1 | h1
      · subst h1
        exact h2
      · exact h e h1

theorem noGhost_cleanup (r : RedisState) (sid : String) :
    noGhost (redisCleanup r sid) := by
  intro e he
  simp only [redisCleanup, List.mem_filterMap] at he
  obtain ⟨p, hp, hfe⟩ := he
  by_cases h2 : alErase p.2 sid = []
  · simp [h2] at hfe
  · simp only [h2, if_false] at hfe
    cases hfe
    exact h2

theorem stepOp_noGhost {st : ServerState} (op : Op) (h : noGhost st.redis) :
    noGhost (stepOp st op).redis := by
  cases op with
  | ev sid u e =>
    cases e with
    | joinG gid =>
      rw [show (stepOp st (Op.ev sid u (CEvent.joinG gid))).redis =
          addUserToGroup st.redis gid sid u.address from joinGroupH_redis st sid u gid]
      exact noGhost_addUser _ _ _ h
    | leaveG gid => exact noGhost_remove _ _ h
    | sendM gid text =>
      rw [show (stepOp st (Op.ev sid u (CEvent.sendM gid text))).redis = st.redis
        from sendMessageH_redis st sid u gid text]
      exact h
    | getGs => exact h
    | createG nm descr => exact h
    | loadM gid before => exact h
  | conn sid token =>
    intro e he
    rw [show (stepOp st (Op.conn sid token)).redis.groupUsers = st.redis.groupUsers
      from connectH_groupUsers st sid token] at he
    exact h e he
  | disc sid => exact noGhost_cleanup _ _
  | tick dt => exact h

theorem stepsOp_noGhost {st : ServerState} (ops : List Op) (h : noGhost st.redis) :
    noGhost (stepsOp st ops).redis := by
  induction ops generalizing st with
  | nil => exact h
  | cons op t ih => exact ih (stepOp_noGhost op h)

/-- C7: the removal operations (`removeUserFromGroup`, the disconnect
cleanup) delete a presence key outright when its hash becomes empty, and
across any sequence of server operations no presence key with zero entries
ever persists in the ephemeral store. -/
theorem no_empty_presence_keys (st : ServerState) (ops : List Op) (h : noGhost st.redis) :
    noGhost (stepsOp st ops).redis ∧
    (∀ r gid sid, noGhost r → noGhost (removeUserFromGroup r gid sid)) ∧
    (∀ r sid, noGhost r → noGhost (redisCleanup r sid)) :=
  ⟨stepsOp_noGhost ops h, fun _ gid sid h2 => noGhost_remove gid sid h2,
    fun r sid _ => noGhost_cleanup r sid⟩

/-- Witness for C7: a state with one single-entry presence hash keeps no
empty key after a leave that empties that hash and a disconnect cleanup. -/
theorem no_empty_presence_keys_witness :
    noGhost stGhost.redis ∧
    noGhost (stepsOp stGhost [Op.ev "s1" u0 (CEvent.leaveG "g"), Op.disc "s1"]).redis :=
  ⟨by decide,
    (no_empty_presence_keys stGhost [Op.ev "s1" u0 (CEvent.leaveG "g"), Op.disc "s1"]
      (by decide)).1⟩
theorem pairwise_of_mem_rel {α : Type} {R : α → α → Prop} {l : List α}
    (h : ∀ a ∈ l, ∀ b ∈ l, R a b) : l.Pairwise R := by
  induction l with
  | nil => exact List.Pairwise.nil
  | cons a t ih =>
    refine List.Pairwise.cons
      (fun b hb => h a (List.mem_cons_self _ _) b (List.mem_cons_of_mem _ hb)) ?_
    exact ih (fun x hx y hy => h x (List.mem_cons_of_mem _ hx) y (List.mem_cons_of_mem _ hy))

theorem getGroups_perm (db : DB) (u : UserR) :
    (getGroupsH db u).Perm (db.groups.filter (fun g => !g.isPrivate)) := by
  unfold getGroupsH
  exact (List.filter_append_perm (fun g => g.members.contains u.uid) _).trans
    (List.perm_insertionSort groupGe _)

theorem getGroups_split (db : DB) (u : UserR) :
    (getGroupsH db u).filter (fun g => g.members.contains u.uid) =
      (List.insertionSort groupGe (db.groups.filter (fun g => !g.isPrivate))).filter
        (fun g => g.members.contains u.uid) ∧
    (getGroupsH db u).filter (fun g => !(g.members.contains u.uid)) =
      (List.insertionSort groupGe (db.groups.filter (fun g => !g.isPrivate))).filter
        (fun g => !(g.members.contains u.uid)) := by
  have hA : ∀ (S : List GroupR),
      (S.filter (fun g => g.members.contains u.uid)).filter
        (fun g => g.members.contains u.uid) =
      S.filter (fun g => g.members.contains u.uid) :=
    fun S => List.filter_eq_self.mpr (fun a ha => (List.mem_filter.mp ha).2)
  have hB : ∀ (S : List GroupR),
      (S.filter (fun g => !(g.members.contains u.uid))).filter
        (fun g => g.members.contains u.uid) = [] :=
    fun S => List.filter_eq_nil_iff.mpr (fun a ha => by
      have h2 := (List.mem_filter.mp ha).2
      intro hcon
      rw [hcon] at h2
      simp at h2)
  have hC : ∀ (S : List GroupR),
      (S.filter (fun g => g.members.contains u.uid)).filter
        (fun g => !(g.members.contains u.uid)) = [] :=
    fun S => List.filter_eq_nil_iff.mpr (fun a ha => by
      have h2 := (List.mem_filter.mp ha).2
      intro hcon
      rw [Bool.not_eq_true'] at hcon
      rw [hcon] at h2
      simp at h2)
  have hD : ∀ (S : List GroupR),
      (S.filter (fun g => !(g.members.contains u.uid))).filter
        (fun g => !(g.members.contains u.uid)) =
      S.filter (fun g => !(g.members.contains u.uid)) :=
    fun S => List.filter_eq_self.mpr (fun a ha => (List.mem_filter.mp ha).2)
  unfold getGroupsH
  constructor
  · rw [List.filter_append, hA, hB]
    simp
  · rw [List.filter_append, hC, hD]
    simp

/-- C8: `getGroups` returns exactly the non-private groups; every group the
viewer belongs to precedes every group they do not belong to, and inside
each partition the newest-created-first order of the underlying stable sort
is preserved. -/
theorem getGroups_ordering (db : DB) (u : UserR) :
    (getGroupsH db u).Perm (db.groups.filter (fun g => !g.isPrivate)) ∧
    (getGroupsH db u).Pairwise (fun a b => u.uid ∈ b.members → u.uid ∈ a.members) ∧
    ((getGroupsH db u).filter (fun g => g.members.contains u.uid)).Sorted groupGe ∧
    ((getGroupsH db u).filter (fun g => !(g.members.contains u.uid))).Sorted groupGe := by
  refine ⟨getGroups_perm db u, ?_, ?_, ?_⟩
  · unfold getGroupsH
    refine List.pairwise_append.mpr ⟨?_, ?_, ?_⟩
    · exact pairwise_of_mem_rel (fun a ha b hb hmemb =>
        List.elem_iff.mp (List.mem_filter.mp ha).2)
    · exact pairwise_of_mem_rel (fun a ha b hb hmemb => by
        have h2 := (List.mem_filter.mp hb).2
        rw [Bool.not_eq_true'] at h2
        have h3 : b.members.contains u.uid = true := List.elem_iff.mpr hmemb
        rw [h2] at h3
        cases h3)
    · intro a ha b hb hmemb
      exact List.elem_iff.mp (List.mem_filter.mp ha).2
  · rw [(getGroups_split db u).1]
    exact List.Pairwise.filter _ (List.sorted_insertionSort groupGe _)
  · rw [(getGroups_split db u).2]
    exact List.Pairwise.filter _ (List.sorted_insertionSort groupGe _)
theorem stepOp_groups_new (st : ServerState) (op : Op) :
    ∀ g2 ∈ (stepOp st op).db.groups,
      g2.isPrivate = false ∨ ∃ g ∈ st.db.groups, g.id = g2.id ∧ g.isPrivate = g2.isPrivate := by
  have triv : ∀ (gs : List GroupR), ∀ g2 ∈ gs,
      g2.isPrivate = false ∨ ∃ g ∈ gs, g.id = g2.id ∧ g.isPrivate = g2.isPrivate :=
    fun gs g2 hg2 => Or.inr ⟨g2, hg2, rfl, rfl⟩
  cases op with
  | ev sid u e =>
    cases e with
    | joinG gid =>
      intro g2 hg2
      rw [show (stepOp st (Op.ev sid u (CEvent.joinG gid))).db =
          (match castObjectId gid with
           | none => st.db
           | some oid => dbJoin st.db u.uid oid) from joinGroupH_db st sid u gid] at hg2
      cases hcast : castObjectId gid with
      | none =>
        rw [hcast] at hg2
        exact triv _ g2 hg2
      | some oid =>
        rw [hcast] at hg2
        rw [show (match (some oid : Option Nat) with
            | none => st.db
            | some o => dbJoin st.db u.uid o) = dbJoin st.db u.uid oid from rfl] at hg2
        cases hf : findGroup st.db.groups oid with
        | none =>
          rw [dbJoin_eq_none hf] at hg2
          exact triv _ g2 hg2
        | some g1 =>
          rw [dbJoin_eq_some hf] at hg2
          unfold dbJoinFound at hg2
          by_cases hmem : g1.members.contains u.uid
          · rw [if_pos hmem] at hg2
            exact triv _ g2 hg2
          · rw [if_neg hmem] at hg2
            rcases mem_updateMembers hf g2 hg2 with h1 | h1
            · exact Or.inr ⟨g2, h1, rfl, rfl⟩
            · subst h1
              exact Or.inr ⟨g1, (findGroup_mem hf).1, rfl, rfl⟩
    | leaveG gid => exact triv _
    | sendM gid text =>
      intro g2 hg2
      rw [show (stepOp st (Op.ev sid u (CEvent.sendM gid text))).db.groups = st.db.groups
        from sendMessageH_groups st sid u gid text] at hg2
      exact triv _ g2 hg2
    | getGs => exact triv _
    | createG nm descr =>
      intro g2 hg2
      rcases List.mem_append.mp hg2 with h1 | h1
      · exact Or.inr ⟨g2, h1, rfl, rfl⟩
      · rcases List.mem_singleton.mp h1 with rfl
        exact Or.inl rfl
    | loadM gid before => exact triv _
  | conn sid token =>
    intro g2 hg2
    rw [show (stepOp st (Op.conn sid token)).db = st.db from connectH_db st sid token] at hg2
    exact triv _ g2 hg2
  | disc sid => exact triv _
  | tick dt => exact triv _

/-- C9: every group created by `createGroup` is public (`isPrivate` is
hard-coded false, the RPC payload carrying only name and description), has
its owner as sole initial member, appears in every viewer's `getGroups`
listing immediately and after any further sequence of operations; and no
server operation ever produces a private group that was not already stored. -/
theorem createGroup_always_public (st : ServerState) (u : UserR) (nm : String)
    (descr : Option String) :
    (createGroupH st u nm descr).2.isPrivate = false ∧
    (createGroupH st u nm descr).2.members = [u.uid] ∧
    (createGroupH st u nm descr).2.owner = u.uid ∧
    (∀ v : UserR, (createGroupH st u nm descr).2 ∈ getGroupsH (createGroupH st u nm descr).1.db v) ∧
    (∀ ops (v : UserR), ∃ g2 ∈ getGroupsH (stepsOp (createGroupH st u nm descr).1 ops).db v,
        g2.id = (createGroupH st u nm descr).2.id ∧ g2.isPrivate = false) ∧
    (∀ st2 op, ∀ g2 ∈ (stepOp st2 op).db.groups,
        g2.isPrivate = false ∨ ∃ g ∈ st2.db.groups, g.id = g2.id ∧ g.isPrivate = g2.isPrivate) := by
  have hmemg : (createGroupH st u nm descr).2 ∈ (createGroupH st u nm descr).1.db.groups :=
    List.mem_append_right _ (List.mem_singleton_self _)
  refine ⟨rfl, rfl, rfl, ?_, ?_, stepOp_groups_new⟩
  · intro v
    refine ((getGroups_perm _ v).mem_iff).mpr ?_
    exact List.mem_filter.mpr ⟨hmemg, rfl⟩
  · intro ops v
    rcases stepsOp_groups_mono (createGroupH st u nm descr).1 ops _ hmemg with
      ⟨g2, hg2, hid, hpriv, -, -⟩
    refine ⟨g2, ((getGroups_perm _ v).mem_iff).mpr (List.mem_filter.mpr ⟨hg2, ?_⟩), hid, ?_⟩
    · rw [hpriv]
      simp
      rfl
    · rw [hpriv]
      rfl
theorem insertionSort_strict_by_id (l : List Msg)
    (hne : l.Pairwise (fun a b => a.id ≠ b.id))
    (hmono : ∀ a ∈ l, ∀ b ∈ l, a.id < b.id → a.createdAt < b.createdAt) :
    (List.insertionSort msgGe l).Pairwise idGt := by
  have hperm := List.perm_insertionSort msgGe l
  have hsort : (List.insertionSort msgGe l).Pairwise msgGe :=
    List.sorted_insertionSort msgGe l
  have hne2 : (List.insertionSort msgGe l).Pairwise (fun a b => a.id ≠ b.id) :=
    (hperm.pairwise_iff (fun h => h.symm)).mpr hne
  refine (hsort.and hne2).imp_of_mem ?_
  intro a b ha hb hab
  have ha2 : a ∈ l := hperm.mem_iff.mp ha
  have hb2 : b ∈ l := hperm.mem_iff.mp hb
  rcases Nat.lt_trichotomy a.id b.id with h1 | h1 | h1
  · exact absurd hab.1 (Nat.not_le.mpr (hmono a ha2 b hb2 h1))
  · exact absurd h1 hab.2
  · exact h1

theorem queryMsgs_none (chats : List Msg) (oid : Nat) :
    queryMsgs chats oid none = liveMsgs chats oid := by
  unfold queryMsgs liveMsgs
  apply List.filter_congr
  intro m hm
  simp [cursorOk]

theorem queryMsgs_some (chats : List Msg) (oid b : Nat) :
    queryMsgs chats oid (some b) = (liveMsgs chats oid).filter (fun m => m.id < b) := by
  unfold queryMsgs liveMsgs
  rw [List.filter_filter]
  apply List.filter_congr
  intro m hm
  simp [cursorOk, Bool.and_comm]

theorem sortedQuery_strict (chats : List Msg) (oid : Nat) (b : Option Nat)
    (hne : (liveMsgs chats oid).Pairwise (fun a b => a.id ≠ b.id))
    (hmono : ∀ a ∈ liveMsgs chats oid, ∀ c ∈ liveMsgs chats oid,
      a.id < c.id → a.createdAt < c.createdAt) :
    (List.insertionSort msgGe (queryMsgs chats oid b)).Pairwise idGt := by
  apply insertionSort_strict_by_id
  · cases b with
    | none =>
      rw [queryMsgs_none]
      exact hne
    | some c =>
      rw [queryMsgs_some]
      exact hne.filter _
  · intro a ha c hc
    cases b with
    | none =>
      rw [queryMsgs_none] at ha hc
      exact hmono a ha c hc
    | some bb =>
      rw [queryMsgs_some] at ha hc
      exact hmono a (List.mem_filter.mp ha).1 c (List.mem_filter.mp hc).1

theorem sortedQuery_some_eq (chats : List Msg) (oid b : Nat)
    (hne : (liveMsgs chats oid).Pairwise (fun a b => a.id ≠ b.id))
    (hmono : ∀ a ∈ liveMsgs chats oid, ∀ c ∈ liveMsgs chats oid,
      a.id < c.id → a.createdAt < c.createdAt) :
    List.insertionSort msgGe (queryMsgs chats oid (some b)) =
      (List.insertionSort msgGe (queryMsgs chats oid none)).filter (fun m => m.id < b) := by
  have hperm : (List.insertionSort msgGe (queryMsgs chats oid (some b))).Perm
      ((List.insertionSort msgGe (queryMsgs chats oid none)).filter (fun m => m.id < b)) := by
    refine (List.perm_insertionSort msgGe _).trans ?_
    rw [queryMsgs_some]
    refine List.Perm.symm ?_
    have h2 := (List.perm_insertionSort msgGe (queryMsgs chats oid none)).filter
      (fun m => decide (m.id < b))
    exact h2.trans (by rw [queryMsgs_none])
  have hs1 : (List.insertionSort msgGe (queryMsgs chats oid (some b))).Pairwise idGt :=
    sortedQuery_strict chats oid (some b) hne hmono
  have hs2 : ((List.insertionSort msgGe (queryMsgs chats oid none)).filter
      (fun m => m.id < b)).Pairwise idGt :=
    (sortedQuery_strict chats oid none hne hmono).filter _
  exact List.eq_of_perm_of_sorted hperm hs1 hs2

theorem filter_lt_of_strict (L : List Msg) (hL : L.Pairwise idGt)
    (A : List Msg) (m : Msg) (B : List Msg) (hdec : L = A ++ m :: B) :
    L.filter (fun x => x.id < m.id) = B := by
  subst hdec
  rcases List.pairwise_append.mp hL with ⟨hA, hmB, hcross⟩
  rw [List.filter_append]
  have hfA : A.filter (fun x => decide (x.id < m.id)) = [] := by
    refine List.filter_eq_nil_iff.mpr ?_
    intro a ha
    have h1 : idGt a m := hcross a ha m (List.mem_cons_self _ _)
    simp only [decide_eq_true_eq]
    exact Nat.lt_asymm h1
  have hfm : (m :: B).filter (fun x => decide (x.id < m.id)) = B := by
    rw [List.filter_cons]
    have h0 : (decide (m.id < m.id)) = false := by simp
    rw [h0]
    simp only [Bool.false_eq_true, if_false]
    refine List.filter_eq_self.mpr ?_
    intro a ha
    have h1 : idGt m a := List.rel_of_pairwise_cons hmB ha
    simp only [decide_eq_true_eq]
    exact h1
  rw [hfA, hfm]
  rfl

theorem oldestId_strict : ∀ (p : List Msg), p.Pairwise idGt → ∀ (h : p ≠ []),
    oldestId p = (p.getLast h).id := by
  intro p
  induction p with
  | nil => intro _ h; exact absurd rfl h
  | cons a t ih =>
    intro hp h
    cases t with
    | nil => rfl
    | cons b t2 =>
      have hab : idGt a b := List.rel_of_pairwise_cons hp (List.mem_cons_self _ _)
      have h1 : oldestId (a :: b :: t2) = oldestId (b :: t2) := by
        show (b :: t2).foldl (fun acc x => min acc x.id) a.id =
          t2.foldl (fun acc x => min acc x.id) b.id
        rw [List.foldl_cons]
        congr 1
        exact Nat.min_eq_right (Nat.le_of_lt hab)
      rw [h1, ih hp.of_cons (List.cons_ne_nil _ _)]
      congr 1

theorem walkAux_spec (chats : List Msg) (oid : Nat)
    (hne : (liveMsgs chats oid).Pairwise (fun a b => a.id ≠ b.id))
    (hmono : ∀ a ∈ liveMsgs chats oid, ∀ c ∈ liveMsgs chats oid,
      a.id < c.id → a.createdAt < c.createdAt) :
    ∀ (fuel : Nat) (b : Option Nat) (P M : List Msg),
      List.insertionSort msgGe (queryMsgs chats oid none) = P ++ M →
      List.insertionSort msgGe (queryMsgs chats oid b) = M →
      M.length < fuel →
      (walkAux chats oid fuel b).flatten = M ∧
      (∀ p ∈ walkAux chats oid fuel b, p.Sorted msgGe) ∧
      (∀ i (hi : i < (walkAux chats oid fuel b).length),
        ((walkAux chats oid fuel b).get ⟨i, hi⟩).length = min 50 (M.length - 50 * i)) := by
  have hL : (List.insertionSort msgGe (queryMsgs chats oid none)).Pairwise idGt :=
    sortedQuery_strict chats oid none hne hmono
  have hLsort : (List.insertionSort msgGe (queryMsgs chats oid none)).Pairwise msgGe :=
    List.sorted_insertionSort msgGe _
  intro fuel
  induction fuel with
  | zero =>
    intro b P M hP hb hlen
    exact absurd hlen (Nat.not_lt_zero _)
  | succ fuel ih =>
    intro b P M hP hb hlen
    have hpage : loadMessagesPure chats oid b = M.take 50 := by
      unfold loadMessagesPure
      rw [hb]
    by_cases hM : M = []
    · subst hM
      have hw : walkAux chats oid (fuel + 1) b = [] := by
        unfold walkAux
        simp [hpage]
      refine ⟨by rw [hw]; rfl, by rw [hw]; simp, ?_⟩
      rw [hw]
      intro i hi
      simp at hi
    · have hpne : M.take 50 ≠ [] := by
        intro hcon
        rcases List.take_eq_nil_iff.mp hcon with h | h
        · cases h
        · exact hM h
      have hMpw : M.Pairwise idGt := by
        have hL2 := hL
        rw [hP] at hL2
        exact (List.pairwise_append.mp hL2).2.1
      have hMsort : M.Pairwise msgGe := by
        have hS2 := hLsort
        rw [hP] at hS2
        exact (List.pairwise_append.mp hS2).2.1
      have hppw : (M.take 50).Pairwise idGt :=
        List.Pairwise.sublist (List.take_sublist 50 M) hMpw
      have hlast := oldestId_strict (M.take 50) hppw hpne
      have hfilter : (List.insertionSort msgGe (queryMsgs chats oid none)).filter
          (fun x => x.id < ((M.take 50).getLast hpne).id) = M.drop 50 := by
        refine filter_lt_of_strict _ hL (P ++ (M.take 50).dropLast)
          ((M.take 50).getLast hpne) (M.drop 50) ?_
        rw [hP]
        conv_lhs => rw [← List.take_append_drop 50 M, ← List.dropLast_concat_getLast hpne]
        simp [List.append_assoc]
      have hquery2 : List.insertionSort msgGe
          (queryMsgs chats oid (some (oldestId (M.take 50)))) = M.drop 50 := by
        rw [sortedQuery_some_eq chats oid _ hne hmono, hlast, hfilter]
      have hstep : walkAux chats oid (fuel + 1) b =
          M.take 50 :: walkAux chats oid fuel (some (oldestId (M.take 50))) := by
        conv_lhs => unfold walkAux
        rw [hpage, if_neg hpne]
      obtain ⟨ih1, ih2, ih3⟩ := ih (some (oldestId (M.take 50))) (P ++ M.take 50) (M.drop 50)
        (by rw [hP]
            conv_lhs => rw [← List.take_append_drop 50 M]
            simp [List.append_assoc])
        hquery2
        (by have h1 : M.length ≤ fuel := Nat.lt_succ_iff.mp hlen
            have h2 : 0 < M.length := List.length_pos.mpr hM
            rw [List.length_drop]
            omega)
      refine ⟨?_, ?_, ?_⟩
      · rw [hstep, List.flatten_cons, ih1, List.take_append_drop]
      · rw [hstep]
        intro p hp
        rcases List.mem_cons.mp hp with h1 | h1
        · subst h1
          exact List.Pairwise.sublist (List.take_sublist 50 M) hMsort
        · exact ih2 p h1
      · rw [hstep]
        intro i hi
        cases i with
        | zero =>
          show (M.take 50).length = min 50 (M.length - 50 * 0)
          rw [List.length_take]
          congr 1
        | succ i =>
          have hi2 : i < (walkAux chats oid fuel (some (oldestId (M.take 50)))).length := by
            simp only [List.length_cons] at hi
            exact Nat.lt_of_succ_lt_succ hi
          have h4 := ih3 i hi2
          rw [List.length_drop] at h4
          show ((walkAux chats oid fuel (some (oldestId (M.take 50)))).get ⟨i, hi2⟩).length =
            min 50 (M.length - 50 * (i + 1))
          rw [h4]
          congr 1
          omega

/-- C1 (amended): provided the group's persisted live messages have
pairwise-distinct ids and creation timestamps strictly increasing with id
(no two messages written in the same clock instant), the cursor walk yields
exactly the N live messages with no duplicate and no gap, globally ordered
strictly newest-first by id, each page sorted newest first and of length
min(50, remaining). -/
theorem pagination_walk_complete (chats : List Msg) (oid : Nat)
    (hne : (liveMsgs chats oid).Pairwise (fun a b => a.id ≠ b.id))
    (hmono : ∀ a ∈ liveMsgs chats oid, ∀ c ∈ liveMsgs chats oid,
      a.id < c.id → a.createdAt < c.createdAt) :
    (walkPages chats oid).flatten.Perm (liveMsgs chats oid) ∧
    (walkPages chats oid).flatten.Pairwise idGt ∧
    (∀ p ∈ walkPages chats oid, p.Sorted msgGe) ∧
    (∀ i (hi : i < (walkPages chats oid).length),
      ((walkPages chats oid).get ⟨i, hi⟩).length =
        min 50 ((liveMsgs chats oid).length - 50 * i)) := by
  have hLperm : (List.insertionSort msgGe (queryMsgs chats oid none)).Perm
      (liveMsgs chats oid) :=
    (List.perm_insertionSort msgGe (queryMsgs chats oid none)).trans
      (show (queryMsgs chats oid none).Perm (liveMsgs chats oid) by rw [queryMsgs_none])
  have hlen : (List.insertionSort msgGe (queryMsgs chats oid none)).length <
      chats.length + 1 := by
    rw [hLperm.length_eq]
    have h2 : (liveMsgs chats oid).length ≤ chats.length :=
      List.length_filter_le (liveIn oid) chats
    omega
  obtain ⟨h1, h2, h3⟩ := walkAux_spec chats oid hne hmono (chats.length + 1) none []
    (List.insertionSort msgGe (queryMsgs chats oid none)) (by simp) rfl hlen
  refine ⟨?_, ?_, ?_, ?_⟩
  · show (walkAux chats oid (chats.length + 1) none).flatten.Perm (liveMsgs chats oid)
    rw [h1]
    exact hLperm
  · show (walkAux chats oid (chats.length + 1) none).flatten.Pairwise idGt
    rw [h1]
    exact sortedQuery_strict chats oid none hne hmono
  · exact h2
  · intro i hi
    rw [← hLperm.length_eq]
    exact h3 i hi

/-- Witness for the amended C1 at a concrete one-message store. -/
theorem pagination_walk_complete_witness :
    (liveMsgs wChats 3).Pairwise (fun a b => a.id ≠ b.id) ∧
    (∀ a ∈ liveMsgs wChats 3, ∀ c ∈ liveMsgs wChats 3,
      a.id < c.id → a.createdAt < c.createdAt) ∧
    ((walkPages wChats 3).flatten.Perm (liveMsgs wChats 3) ∧
     (walkPages wChats 3).flatten.Pairwise idGt ∧
     (∀ p ∈ walkPages wChats 3, p.Sorted msgGe) ∧
     (∀ i (hi : i < (walkPages wChats 3).length),
       ((walkPages wChats 3).get ⟨i, hi⟩).length =
         min 50 ((liveMsgs wChats 3).length - 50 * i))) :=
  ⟨by decide, by decide, pagination_walk_complete wChats 3 (by decide) (by decide)⟩

set_option maxRecDepth 10000

/-- Counterexample to C1 as stated: 51 messages of the same group all
persisted with the same `createdAt` (one millisecond) and distinct
monotone ids. The query sorts by `createdAt` (not `_id`) while the cursor
filters on `_id`, so the walk returns a single page of 50 messages and the
51st is never returned: 50 ≠ N = 51, a gap, with no concurrent insertion
of any kind. -/
theorem pagination_walk_counterexample :
    (walkPages cexChats 7).flatten.length = 50 ∧ (liveMsgs cexChats 7).length = 51 := by
  constructor
  · decide
  · decide
